import Mathlib

/-!
# Verification of `thesaurus.py` (semantic-web-company/thesaurus)

A shallow embedding of the similarity core of `src/thesaurus/thesaurus.py`:
the `Thesaurus` class (an `rdflib` graph holding SKOS broader/narrower edges
and two frequency annotations per concept), its ancestor resolution
(`broaders`), LCS search (`get_lcs`), Lin similarity (`get_lin_similarity`),
frequency propagation (`add_frequencies`, `precompute_number_children`,
`get_cumulative_freq`, `get_own_freq`), the all-pairs matrix builder
(`get_sim_dict`), the legacy cache converter (`create_matrix_from_dict`)
and the centrality-ranking dispatcher (`get_importance_ranking`).

Modelling conventions:

* Concept identifiers (`rdflib.URIRef`) are strings.
* Numeric literals stored in the graph (frequencies) are rationals; the
  floating-point arithmetic of `get_lin_similarity` (numpy `log`, division)
  is modelled over the real numbers.
* The per-predicate functional state of the RDF graph (`Graph.set`) is
  modelled by association lists from concept to rational.
* The Python `functools.lru_cache` on `get_cumulative_freq` keys on the
  exact argument tuple, so a one-argument call and a call with an explicit
  default occupy distinct cache slots; the memo is keyed by
  `URI × Option ℚ` (`none` = called with the default `def_value`,
  `some q` = explicit). A cached entry is returned as-is even if the
  stored triple has changed.
* Python set iteration order is unspecified but content-determined; the
  embedding fixes concrete list orders (taxonomy insertion order for
  concepts and edges, the broader-edge target order for ancestor
  intersections), a legitimate instance of that nondeterminism.
-/

abbrev URI := String

/-- State of one `Thesaurus` instance: the SKOS triples the similarity core
reads (concept declarations, broader/narrower edges, the two frequency
predicates) together with the `lru_cache` of `get_cumulative_freq`. -/
structure Thes where
  topUri : URI
  concepts : List URI
  broaderEdges : List (URI × URI)
  narrowerEdges : List (URI × URI)
  ownFreqStore : List (URI × ℚ)
  cumFreqStore : List (URI × ℚ)
  cumMemo : List ((URI × Option ℚ) × ℚ)
deriving DecidableEq

/-- Association-list lookup (first match wins), the read of a functional
RDF property. -/
def lookupStore (s : List (URI × ℚ)) (c : URI) : Option ℚ :=
  match s.find? (fun e => e.1 = c) with
  | some e => some e.2
  | none => none

/-- Model of `Graph.set`: replace the (unique) triple with this subject/predicate. -/
def setStore (s : List (URI × ℚ)) (c : URI) (v : ℚ) : List (URI × ℚ) :=
  (c, v) :: s.filter (fun e => ¬ e.1 = c)

/-- Lookup in the `get_cumulative_freq` memo (keyed by argument tuple). -/
def lookupMemo (m : List ((URI × Option ℚ) × ℚ)) (k : URI × Option ℚ) : Option ℚ :=
  match m.find? (fun e => e.1 = k) with
  | some e => some e.2
  | none => none

/-- Model of `get_all_concepts`: the set of subjects typed `skos:Concept`. -/
def allConcepts (t : Thes) : List URI := t.concepts.dedup

/-- Direct successors of `c` along an edge list (one `broader`/`narrower`
step). -/
def edgeSucc (edges : List (URI × URI)) (c : URI) : List URI :=
  (edges.filter (fun e => e.1 = c)).map (fun e => e.2)

/-- One-or-more-step reachability (the rdflib one-or-more property path),
computed by fuelled breadth-first saturation. `fuel` iterations beyond the
first suffice once `fuel ≥` the number of distinct edge targets, which
`edges.length` bounds. -/
def closureAux (edges : List (URI × URI)) : Nat → List URI → List URI → List URI
  | 0, _, visited => visited
  | n + 1, frontier, visited =>
    let next := ((frontier.flatMap (edgeSucc edges)).dedup).filter (fun x => ¬ x ∈ visited)
    closureAux edges n next (visited ++ next)

/-- All nodes reachable from `c` in at least one step (the one-or-more path). -/
def closureFrom (edges : List (URI × URI)) (c : URI) : List URI :=
  let start := (edgeSucc edges c).dedup
  closureAux edges edges.length start start

/-- Model of `Thesaurus.broaders(cpt_uri)`: the transitive closure of `skos:broader`
(excluding zero steps). The source memoizes this with `lru_cache`; no claim
mutates the edge set after a query, so the memo is value-invisible and the
function is modelled as pure. -/
def broaders (t : Thes) (c : URI) : List URI :=
  closureFrom t.broaderEdges c

/-- The zero-or-more `skos:broader` closure used by `add_frequencies` when no path
is given: zero or more steps, so the concept itself is included. -/
def broadersStar (t : Thes) (c : URI) : List URI :=
  (c :: closureFrom t.broaderEdges c).dedup

/-- The zero-or-more `skos:narrower` closure. -/
def narrowersStar (t : Thes) (c : URI) : List URI :=
  (c :: closureFrom t.narrowerEdges c).dedup

/-- Value returned by `get_cumulative_freq(c_uri, def_value)`: the memo
entry for this exact argument tuple if present, else the stored
`:cum_frequency` literal, else the default (`1` when called with one
argument, i.e. key component `none`). -/
def cumVal (t : Thes) (c : URI) (dv : Option ℚ) : ℚ :=
  match lookupMemo t.cumMemo (c, dv) with
  | some v => v
  | none =>
    match lookupStore t.cumFreqStore c with
    | some v => v
    | none => dv.getD 1

/-- Value returned by `get_own_freq(c_uri, def_value)` (not memoized). -/
def ownVal (t : Thes) (c : URI) (dv : ℚ) : ℚ :=
  (lookupStore t.ownFreqStore c).getD dv

/-- Model of `get_cumulative_freq` as a state transformer: returns the value and
inserts the memo entry on a cache miss (`lru_cache` never overwrites). -/
def getCumulativeFreqOp (t : Thes) (c : URI) (dv : Option ℚ) : ℚ × Thes :=
  let v := cumVal t c dv
  match lookupMemo t.cumMemo (c, dv) with
  | some _ => (v, t)
  | none => (v, { t with cumMemo := ((c, dv), v) :: t.cumMemo })

/-- Model of `add_frequencies(cpt_uri, cpt_freq)` with the default arguments
`path=None, def_value=0`: the `path` becomes the zero-or-more `broader` closure of
the concept (the concept itself and all its ancestors), the own frequency
is bumped by `cpt_freq` from its current stored value (default 0), and each
path member cumulative frequency is bumped by `cpt_freq` from the value
`get_cumulative_freq(uri, 0)` returns, which is the `lru_cache` entry for
the key `(uri, 0)` when one exists. -/
def add_frequencies (t : Thes) (c : URI) (k : ℚ) : Thes :=
  let path := broadersStar t c
  let oldOwn := ownVal t c 0
  let t1 := { t with ownFreqStore := setStore t.ownFreqStore c (oldOwn + k) }
  path.foldl
    (fun acc uri =>
      let r := getCumulativeFreqOp acc uri (some 0)
      { r.2 with cumFreqStore := setStore r.2.cumFreqStore uri (r.1 + k) })
    t1

/-- Model of `precompute_number_children`: sets the cumulative frequency of each concept
to the number of concepts reachable via zero-or-more `narrower` steps (itself
included). Only the frequency store changes; the edge set is untouched. -/
def precompute_number_children (t : Thes) : Thes :=
  (allConcepts t).foldl
    (fun acc c =>
      { acc with cumFreqStore := setStore acc.cumFreqStore c ((narrowersStar acc c).length : ℚ) })
    t

/-- The candidate pool for an ancestor intersection: every broader-edge
target, in edge order. Any element of a `broaders` closure is such a
target, so filtering this pool by membership in both closures is the
intersection `broaders(c1) & broaders(c2)` in a canonical,
argument-order-independent enumeration (the Python set intersection is
likewise content-determined). -/
def interAnc (t : Thes) (a b : URI) : List URI :=
  ((t.broaderEdges.map (fun e => e.2)).dedup).filter
    (fun x => decide (x ∈ broaders t a) && decide (x ∈ broaders t b))

/-- Model of `min(cs.items(), key=lambda x: x[1])`: the first pair attaining the
minimal cumulative frequency (the Python `min` is stable). -/
def minByFreq (t : Thes) : List URI → Option (URI × ℚ)
  | [] => none
  | x :: xs =>
    some (xs.foldl
      (fun best y => if cumVal t y none < best.2 then (y, cumVal t y none) else best)
      (x, cumVal t x none))

/-- Model of `get_lcs(c1_uri, c2_uri)`: identity, ancestor-of, minimum over the
ancestor intersection, or the default of the root with infinite frequency when the
intersection is empty (the frequency component lives in `WithTop ℚ` to
carry that infinity). -/
def get_lcs (t : Thes) (a b : URI) : URI × WithTop ℚ :=
  if a = b then (a, (cumVal t a none : ℚ))
  else if a ∈ broaders t b then (a, (cumVal t a none : ℚ))
  else if b ∈ broaders t a then (b, (cumVal t b none : ℚ))
  else
    match minByFreq t (interAnc t a b) with
    | some p => (p.1, (p.2 : ℚ))
    | none => (t.topUri, ⊤)

/-- Model of `np.isclose(a, b)` with the numpy default tolerances
(`rtol=1e-5`, `atol=1e-8`). -/
def npIsClose (a b : ℝ) : Prop := |a - b| ≤ 1e-8 + 1e-5 * |b|

open scoped Classical in
/-- Model of `get_lin_similarity(c1_uri, c2_uri)`. Returns `1` on identity, `0` when
the LCS is the root, `1` when `p1 + p2 == 0` (both concepts as frequent as
the root), otherwise `2*p_lcs/(p1+p2)` guarded by
`assert 0. <= score <= 1`; a failed assertion is the `.error` case
(Python raises `AssertionError`). When the LCS frequency is the
float-infinity default with a non-root LCS (unreachable in practice),
`p_lcs` is infinite and the score is `±inf`, so the assert fails unless the
`p1 + p2 == 0` short-circuit fired first; the `⊤` branch mirrors exactly
that. -/
noncomputable def get_lin_similarity (t : Thes) (a b : URI) : Except String ℝ :=
  if a = b then .ok 1
  else
    let lf := get_lcs t a b
    if lf.1 = t.topUri then .ok 0
    else
      let c1f : ℝ := (cumVal t a none : ℝ)
      let c2f : ℝ := (cumVal t b none : ℝ)
      let topf : ℝ := (cumVal t t.topUri none : ℝ)
      let p1 : ℝ := Real.log (c1f / topf)
      let p2 : ℝ := Real.log (c2f / topf)
      match lf.2 with
      | ⊤ => if p1 + p2 = 0 then .ok 1 else .error "AssertionError"
      | (q : ℚ) =>
        let pl : ℝ := Real.log ((q : ℝ) / topf)
        if p1 + p2 = 0 then .ok 1
        else
          let score := 2 * pl / (p1 + p2)
          if 0 ≤ score ∧ score ≤ 1 then .ok score else .error "AssertionError"

/-- Model of `get_leaves`: concepts that are the target of no `broader` edge
(`all_concepts - {objects of broader triples}`). -/
def leavesOf (t : Thes) : List URI :=
  (allConcepts t).filter (fun c => ¬ t.broaderEdges.any (fun e => e.2 = c))

/-- The concept ordering of the similarity matrix:
`list(leaves) + list(all_cpts - leaves)` (leaves first). -/
def orderedCpts (t : Thes) : List URI :=
  leavesOf t ++ (allConcepts t).filter (fun c => ¬ c ∈ leavesOf t)

/-- The per-top-concept clusters of `get_sim_dict`: for each direct
`narrower` child of the root, the set of concepts reachable from it via
zero-or-more `narrower` steps (the child included). -/
def topClusters (t : Thes) : List (Finset URI) :=
  (edgeSucc t.narrowerEdges t.topUri).map (fun tc => (narrowersStar t tc).toFinset)

/-- A similarity matrix, `np.eye`-initialised and updated pointwise. -/
def Mat : Type := Nat → Nat → ℝ

/-- Model of `sim_dict[i, j] = v`. -/
def matSet (m : Mat) (i j : Nat) (v : ℝ) : Mat :=
  fun a b => if a = i ∧ b = j then v else m a b

/-- Model of `np.eye(n)` (reads of the sweep never leave the `n × n` block). -/
def matEye : Mat := fun i j => if i = j then 1 else 0

/-- State threaded through the pairwise sweep of `get_sim_dict`: the matrix
being filled, the `lin0_score` defaultdict of zero-linked concept sets, and
(ghost instrumentation) the list of pairs actually passed to
`get_lin_similarity`. -/
structure SweepSt where
  m : Mat
  lin0 : URI → Finset URI
  calls : List (URI × URI)

/-- The `lin0_score` update executed when `np.isclose(lin_score, 0)`
(source lines 522-528): `brs1 = broaders(cpt1) | {cpt1}`, then
`brs2 = broaders(cpt2) | {cpt1}` — the source does write `{cpt1}` on
line 524 — and each member of either set gets the other set unioned into
its entry. -/
def record0 (t : Thes) (lin0 : URI → Finset URI) (cpt1 cpt2 : URI) : URI → Finset URI :=
  let brs1 : Finset URI := (broaders t cpt1).toFinset ∪ {cpt1}
  let brs2 : Finset URI := (broaders t cpt2).toFinset ∪ {cpt1}
  fun ph =>
    lin0 ph ∪ (if ph ∈ brs1 then brs2 else ∅) ∪ (if ph ∈ brs2 then brs1 else ∅)

open scoped Classical in
/-- One iteration of the inner loop `for j, cpt2 in enumerate(all_cpts[i:])`
of `get_sim_dict`: cluster pruning, the zero-link shortcut, or an engine
call whose result is written to `sim_dict[i, j]` — `j` being the
enumeration index into the *suffix*, exactly as the source writes it. -/
noncomputable def pairStep (t : Thes) (c1cl : List (Finset URI)) (i : Nat) (cpt1 : URI)
    (st : SweepSt) (jc : Nat × URI) : Except String SweepSt :=
  if ¬ c1cl.any (fun cl => jc.2 ∈ cl) then
    .ok { st with m := matSet st.m i jc.1 0 }
  else if jc.2 ∈ st.lin0 cpt1 ∨ cpt1 ∈ st.lin0 jc.2 then
    .ok { st with m := matSet st.m i jc.1 0 }
  else
    match get_lin_similarity t cpt1 jc.2 with
    | .error e => .error e
    | .ok r =>
      let st1 : SweepSt :=
        { m := matSet st.m i jc.1 r, lin0 := st.lin0, calls := st.calls ++ [(cpt1, jc.2)] }
      if npIsClose r 0 then .ok { st1 with lin0 := record0 t st1.lin0 cpt1 jc.2 }
      else .ok st1

/-- Exception-propagating fold (a Python `for` body that may raise). -/
def foldSteps {α : Type} (f : SweepSt → α → Except String SweepSt) :
    Except String SweepSt → List α → Except String SweepSt
  | acc, [] => acc
  | .error e, _ :: _ => .error e
  | .ok st, x :: xs => foldSteps f (f st x) xs

/-- One iteration of the outer loop `for i, cpt1 in enumerate(all_cpts)`:
collect the clusters containing `cpt1`, mirror
`for j in range(i - 1 if i > 0 else 0): sim_dict[i, j] = sim_dict[j, i]`
(note the missing column `i - 1`), then run the inner loop over the
enumerated suffix `all_cpts[i:]`. -/
noncomputable def rowStep (t : Thes) (clusters : List (Finset URI)) (allc : List URI)
    (st : SweepSt) (ic : Nat × URI) : Except String SweepSt :=
  let c1cl := clusters.filter (fun cl => ic.2 ∈ cl)
  let m1 := (List.range (ic.1 - 1)).foldl (fun m j => matSet m ic.1 j (m j ic.1)) st.m
  foldSteps (pairStep t c1cl ic.1 ic.2) (.ok { st with m := m1 }) (allc.drop ic.1).enum

/-- The full pairwise sweep of `get_sim_dict` (the branch taken when no
cache file exists), producing the final matrix, zero-link structure and
engine-call trace. -/
noncomputable def sweepAll (t : Thes) : Except String SweepSt :=
  let allc := orderedCpts t
  let clusters := topClusters t
  (orderedCpts t).enum.foldl
    (fun acc ic =>
      match acc with
      | .error e => .error e
      | .ok st => rowStep t clusters allc st ic)
    (.ok { m := matEye, lin0 := fun _ => ∅, calls := [] })

/-- Model of `get_sim_dict(sim_dict_path, the)` when no cache exists: the matrix and
the ordered concept list (the `coo_matrix`/`str` conversions and the pickle
write are identities on the model). -/
noncomputable def get_sim_dict_build (t : Thes) : Except String (Mat × List URI) :=
  match sweepAll t with
  | .error e => .error e
  | .ok st => .ok (st.m, orderedCpts t)

/-- Matrix entry of the built similarity matrix (`none` when the sweep
raised). -/
noncomputable def mEntry (t : Thes) (i j : Nat) : Option ℝ :=
  match sweepAll t with
  | .error _ => none
  | .ok st => some (st.m i j)

/-- The final `lin0_score` entry of a concept after the sweep. -/
noncomputable def lin0Of (t : Thes) (c : URI) : Option (Finset URI) :=
  match sweepAll t with
  | .error _ => none
  | .ok st => some (st.lin0 c)

/-- The pairs on which the sweep invoked the similarity engine. -/
noncomputable def callsOf (t : Thes) : Option (List (URI × URI)) :=
  match sweepAll t with
  | .error _ => none
  | .ok st => some st.calls

/-- Model of `sim_matrix[i, j] = v` for the rational-valued conversion matrix. -/
def qMatSet (m : Nat → Nat → ℚ) (i j : Nat) (v : ℚ) : Nat → Nat → ℚ :=
  fun a b => if a = i ∧ b = j then v else m a b

/-- Association-list lookup for the legacy nested mapping (integer keys). -/
def lookupNat {α : Type} (d : List (Nat × α)) (k : Nat) : Option α :=
  match d.find? (fun e => e.1 = k) with
  | some e => some e.2
  | none => none

/-- Model of `create_matrix_from_dict(sim_dict, the)`: rebuild the leaves-first
concept ordering, start from `np.eye`, and overwrite entry `(i, j)` with
`sim_dict[i][j]` for every enumerated `i, j` present in the mapping. -/
def create_matrix_from_dict (d : List (Nat × List (Nat × ℚ))) (t : Thes) :
    (Nat → Nat → ℚ) × List URI :=
  let allc := orderedCpts t
  let m0 : Nat → Nat → ℚ := fun i j => if i = j then 1 else 0
  let m := (List.range allc.length).foldl
    (fun m i =>
      match lookupNat d i with
      | none => m
      | some row =>
        (List.range allc.length).foldl
          (fun m j =>
            match lookupNat row j with
            | none => m
            | some v => qMatSet m i j v)
          m)
    m0
  (m, allc)

/-- An unpickled similarity cache: either the canonical
`(sparse matrix, ordered id list)` pair or the legacy nested mapping
`{row index -> {column index -> score}}` (a Python dict, insertion
ordered). The sparse matrix payload of the canonical pair is opaque to the
loading branch, which returns it untouched. -/
inductive Unpickled
  | pair (mat : List (Nat × Nat × ℚ)) (ids : List URI)
  | dict (d : List (Nat × List (Nat × ℚ)))

/-- Python `len` of the unpickled object: 2 for the canonical two-tuple,
the number of rows (keys) for the legacy mapping. -/
def pyLen : Unpickled → Nat
  | .pair _ _ => 2
  | .dict d => d.length

/-- What the loading branch of `get_sim_dict` hands back:
the canonical pair unchanged, the converted `(matrix, ordering)` pair, or —
when `sim_dict, all_cpts = unpickled` unpacks a two-key dict — its
two row keys, bound in key order to the two result variables. -/
inductive LoadOutcome
  | asPair (mat : List (Nat × Nat × ℚ)) (ids : List URI)
  | converted (m : Nat → Nat → ℚ) (ids : List URI)
  | mistaken (k1 k2 : Nat)

/-- The cache-loading branch of `get_sim_dict` (source lines 475-480):
`if len(unpickled) == 2: sim_dict, all_cpts = unpickled`
`else: sim_dict, all_cpts = create_matrix_from_dict(unpickled, the)`.
A canonical pair always has `len == 2` and is unpacked as itself; a legacy
dict is converted only when its key count differs from 2 — a two-row dict
passes the `len == 2` test and tuple-unpacks into its two keys. -/
def load_sim_dict (u : Unpickled) (t : Thes) : LoadOutcome :=
  match u with
  | .pair mat ids => .asPair mat ids
  | .dict d =>
    if d.length = 2 then
      .mistaken ((d.map (fun e => e.1)).getD 0 0) ((d.map (fun e => e.1)).getD 1 0)
    else
      let r := create_matrix_from_dict d t
      .converted r.1 r.2

/-- A Python exception, as far as `get_importance_ranking` can raise one. -/
inductive PyErr
  | attributeError (msg : String)
  | exception (msg : String)
deriving DecidableEq

/-- The two centrality computations are external collaborators
(`networkx`); their results are opaque. -/
inductive Centrality
  | pagerank
  | betweenness
deriving DecidableEq

/-- The attribute access `self.get_pref_label`: the `Thesaurus` class does
not define `get_pref_label` (it is commented out at source lines 115-117
and no base class provides it), so every evaluation raises
`AttributeError`. -/
def getPrefLabelCall (_c : URI) : Except PyErr String :=
  .error (.attributeError "Thesaurus object has no attribute get_pref_label")

/-- Model of `get_importance_ranking(method)`: builds the label graph — calling
`self.get_pref_label` once per concept and twice per broader edge — then
dispatches on `method`, raising
an exception whose message names the method for anything other than
betweenness and pr. -/
def get_importance_ranking (t : Thes) (method : String) : Except PyErr Centrality :=
  match (allConcepts t).mapM getPrefLabelCall with
  | .error e => .error e
  | .ok _ =>
    match t.broaderEdges.mapM (fun e => getPrefLabelCall e.1) with
    | .error e => .error e
    | .ok _ =>
      if method = "betweenness" then .ok .betweenness
      else if method = "pr" then .ok .pagerank
      else .error (.exception ("Method " ++ method ++ " not implemented yet"))

/-- The frequency-mutating operations of the claims: additive propagation
and the structural child count. -/
inductive FreqOp
  | addF (c : URI) (k : ℚ)
  | precompute

/-- Run one frequency operation. -/
def applyOp (t : Thes) : FreqOp → Thes
  | .addF c k => add_frequencies t c k
  | .precompute => precompute_number_children t

/-- Run a sequence of frequency operations. -/
def applyOps (t : Thes) (ops : List FreqOp) : Thes := ops.foldl applyOp t

/-- A freshly constructed `Thesaurus()`: `__init__` types `:T` as a
`skos:Concept`; no edges, no frequencies, empty caches. -/
def freshThes : Thes :=
  { topUri := ":T", concepts := [":T"], broaderEdges := [], narrowerEdges := [],
    ownFreqStore := [], cumFreqStore := [], cumMemo := [] }

/-- Two-leaf taxonomy `:T -> A`, `:T -> B` (both edge directions present,
as `add_path`/`query_thesaurus` create them); no frequency data. -/
def tT3 : Thes :=
  { topUri := ":T", concepts := [":T", "A", "B"],
    broaderEdges := [("A", ":T"), ("B", ":T")],
    narrowerEdges := [(":T", "A"), (":T", "B")],
    ownFreqStore := [], cumFreqStore := [], cumMemo := [] }

/-- Four-concept DAG: `X` sits both directly under the root and under `C`,
`Y` sits under `C`, `C` under the root (all inverse edge pairs present).
Cumulative frequencies `X=2, Y=10, C=10, :T=10` — monotone (every
ancestor at least as frequent as each descendant) and root-dominant. -/
def tT4 : Thes :=
  { topUri := ":T", concepts := [":T", "X", "Y", "C"],
    broaderEdges := [("X", ":T"), ("C", ":T"), ("X", "C"), ("Y", "C")],
    narrowerEdges := [(":T", "X"), (":T", "C"), ("C", "X"), ("C", "Y")],
    ownFreqStore := [],
    cumFreqStore := [(":T", 10), ("X", 2), ("Y", 10), ("C", 10)],
    cumMemo := [] }

/-- Chain `:T -> A` with no frequency data, for the double-propagation
scenario. -/
def tC2 : Thes :=
  { topUri := ":T", concepts := [":T", "A"],
    broaderEdges := [("A", ":T")], narrowerEdges := [(":T", "A")],
    ownFreqStore := [], cumFreqStore := [], cumMemo := [] }

def clT3 : List (Finset URI) := [{"A"}, {"B"}]

def mT3a : Mat := matSet (matSet (matSet matEye 0 0 1) 0 1 0) 0 2 0

def mT3b : Mat := matSet (matSet mT3a 1 0 1) 1 1 0

def mT3c : Mat := matSet (matSet mT3b 2 0 0) 2 0 0

def mT4a : Mat := matSet (matSet (matSet (matSet matEye 0 0 1) 0 1 0) 0 2 0) 0 3 0

def mT4b : Mat := matSet (matSet (matSet mT4a 1 0 1) 1 1 0) 1 2 1

def mT4c : Mat := matSet (matSet (matSet mT4b 2 0 0) 2 0 0) 2 1 0

def mT4d : Mat := matSet (matSet (matSet mT4c 3 0 0) 3 1 0) 3 0 0

def clT4 : List (Finset URI) := [{"X"}, {"C", "X", "Y"}]

theorem pairStep_prune (t : Thes) (c1cl : List (Finset URI)) (i : Nat) (c1 : URI)
    (st : SweepSt) (j : Nat) (c2 : URI)
    (h : c1cl.any (fun cl => c2 ∈ cl) = false) :
    pairStep t c1cl i c1 st (j, c2) = .ok ⟨matSet st.m i j 0, st.lin0, st.calls⟩ := by
  unfold pairStep
  rw [if_pos (by simp [h])]

theorem pairStep_short (t : Thes) (c1cl : List (Finset URI)) (i : Nat) (c1 : URI)
    (st : SweepSt) (j : Nat) (c2 : URI)
    (h : c1cl.any (fun cl => c2 ∈ cl) = true)
    (h2 : c2 ∈ st.lin0 c1 ∨ c1 ∈ st.lin0 c2) :
    pairStep t c1cl i c1 st (j, c2) = .ok ⟨matSet st.m i j 0, st.lin0, st.calls⟩ := by
  unfold pairStep
  rw [if_neg (by simp [h]), if_pos h2]

theorem pairStep_far (t : Thes) (c1cl : List (Finset URI)) (i : Nat) (c1 : URI)
    (st : SweepSt) (j : Nat) (c2 : URI) (r : ℝ)
    (h : c1cl.any (fun cl => c2 ∈ cl) = true)
    (h2 : ¬ (c2 ∈ st.lin0 c1 ∨ c1 ∈ st.lin0 c2))
    (hr : get_lin_similarity t c1 c2 = .ok r)
    (h3 : ¬ npIsClose r 0) :
    pairStep t c1cl i c1 st (j, c2) =
      .ok ⟨matSet st.m i j r, st.lin0, st.calls ++ [(c1, c2)]⟩ := by
  unfold pairStep
  rw [if_neg (by simp [h]), if_neg h2, hr]
  simp only []
  rw [if_neg h3]

theorem pairStep_zero (t : Thes) (c1cl : List (Finset URI)) (i : Nat) (c1 : URI)
    (st : SweepSt) (j : Nat) (c2 : URI) (r : ℝ)
    (h : c1cl.any (fun cl => c2 ∈ cl) = true)
    (h2 : ¬ (c2 ∈ st.lin0 c1 ∨ c1 ∈ st.lin0 c2))
    (hr : get_lin_similarity t c1 c2 = .ok r)
    (h3 : npIsClose r 0) :
    pairStep t c1cl i c1 st (j, c2) =
      .ok ⟨matSet st.m i j r, record0 t st.lin0 c1 c2, st.calls ++ [(c1, c2)]⟩ := by
  unfold pairStep
  rw [if_neg (by simp [h]), if_neg h2, hr]
  simp only []
  rw [if_pos h3]

theorem notclose_one : ¬ npIsClose 1 0 := by norm_num [npIsClose]

theorem close_zero : npIsClose 0 0 := by norm_num [npIsClose]

theorem rowStep_eq (t : Thes) (clusters : List (Finset URI)) (allc : List URI) (st : SweepSt)
    (i : Nat) (c1 : URI) (c1cl : List (Finset URI)) (m1 : Mat) (tail : List (Nat × URI))
    (out : Except String SweepSt)
    (hfil : clusters.filter (fun cl => c1 ∈ cl) = c1cl)
    (hmir : (List.range (i - 1)).foldl (fun m j => matSet m i j (m j i)) st.m = m1)
    (htail : (allc.drop i).enum = tail)
    (hfold : foldSteps (pairStep t c1cl i c1) (.ok ⟨m1, st.lin0, st.calls⟩) tail = out) :
    rowStep t clusters allc st (i, c1) = out := by
  simp only [rowStep]
  rw [hfil, hmir, htail]
  exact hfold

theorem topClusters_T3 : topClusters tT3 = clT3 := by with_unfolding_all rfl

theorem ordered_T3 : orderedCpts tT3 = ["A", "B", ":T"] := by with_unfolding_all rfl

theorem hlinAA : get_lin_similarity tT3 "A" "A" = .ok 1 := by with_unfolding_all rfl

theorem hlinBB : get_lin_similarity tT3 "B" "B" = .ok 1 := by with_unfolding_all rfl

theorem sweepT3 : sweepAll tT3 =
    .ok ⟨mT3c, fun _ => ∅, [("A", "A"), ("B", "B")]⟩ := by
  have s00 : pairStep tT3 [{"A"}] 0 "A" ⟨matEye, fun _ => ∅, []⟩ (0, "A")
      = .ok ⟨matSet matEye 0 0 1, fun _ => ∅, [("A", "A")]⟩ := by
    rw [pairStep_far tT3 [{"A"}] 0 "A" ⟨matEye, fun _ => ∅, []⟩ 0 "A" 1
      (by with_unfolding_all rfl) (by simp) hlinAA notclose_one]
    simp
  have s10 : pairStep tT3 [{"B"}] 1 "B" ⟨mT3a, fun _ => ∅, [("A", "A")]⟩ (0, "B")
      = .ok ⟨matSet mT3a 1 0 1, fun _ => ∅, [("A", "A"), ("B", "B")]⟩ := by
    rw [pairStep_far tT3 [{"B"}] 1 "B" ⟨mT3a, fun _ => ∅, [("A", "A")]⟩ 0 "B" 1
      (by with_unfolding_all rfl) (by simp) hlinBB notclose_one]
    simp
  have hrow0 : rowStep tT3 clT3 ["A", "B", ":T"] ⟨matEye, fun _ => ∅, []⟩ (0, "A")
      = .ok ⟨mT3a, fun _ => ∅, [("A", "A")]⟩ := by
    refine rowStep_eq tT3 clT3 ["A", "B", ":T"] _ 0 "A" [{"A"}] matEye
      [(0, "A"), (1, "B"), (2, ":T")] _ (by with_unfolding_all rfl) rfl rfl ?_
    simp only [foldSteps]
    rw [s00]
    simp only [foldSteps]
    rfl
  have hrow1 : rowStep tT3 clT3 ["A", "B", ":T"] ⟨mT3a, fun _ => ∅, [("A", "A")]⟩ (1, "B")
      = .ok ⟨mT3b, fun _ => ∅, [("A", "A"), ("B", "B")]⟩ := by
    refine rowStep_eq tT3 clT3 ["A", "B", ":T"] _ 1 "B" [{"B"}] mT3a
      [(0, "B"), (1, ":T")] _ (by with_unfolding_all rfl) rfl rfl ?_
    simp only [foldSteps]
    rw [s10]
    simp only [foldSteps]
    rfl
  have hrow2 : rowStep tT3 clT3 ["A", "B", ":T"] ⟨mT3b, fun _ => ∅, [("A", "A"), ("B", "B")]⟩ (2, ":T")
      = .ok ⟨mT3c, fun _ => ∅, [("A", "A"), ("B", "B")]⟩ := by
    refine rowStep_eq tT3 clT3 ["A", "B", ":T"] _ 2 ":T" [] (matSet mT3b 2 0 0)
      [(0, ":T")] _ (by with_unfolding_all rfl) ?_ rfl ?_
    · show matSet mT3b 2 0 (mT3b 0 2) = matSet mT3b 2 0 0
      rw [show mT3b 0 2 = (0 : ℝ) from by norm_num [mT3b, mT3a, matSet, matEye]]
    · simp only [foldSteps]
      rfl
  simp only [sweepAll]
  rw [ordered_T3, topClusters_T3]
  rw [show ((["A", "B", ":T"] : List URI).enum) = [(0, "A"), (1, "B"), (2, ":T")] from rfl]
  simp only [List.foldl_cons, List.foldl_nil]
  simp only [hrow0]
  simp only [hrow1]
  simp only [hrow2]

theorem hlinXX4 : get_lin_similarity tT4 "X" "X" = .ok 1 := by with_unfolding_all rfl

theorem hlinXY4 : get_lin_similarity tT4 "X" "Y" = .ok 0 := by with_unfolding_all rfl

theorem hlinYY4 : get_lin_similarity tT4 "Y" "Y" = .ok 1 := by with_unfolding_all rfl

theorem hlinYC4 : get_lin_similarity tT4 "Y" "C" = .ok 1 := by
  have hlcs : get_lcs tT4 "Y" "C" = ("C", ((10 : ℚ) : WithTop ℚ)) := by with_unfolding_all rfl
  have hY : cumVal tT4 "Y" none = 10 := by with_unfolding_all rfl
  have hC : cumVal tT4 "C" none = 10 := by with_unfolding_all rfl
  have hT : cumVal tT4 ":T" none = 10 := by with_unfolding_all rfl
  have htop : tT4.topUri = ":T" := rfl
  simp only [get_lin_similarity, hlcs, htop, hY, hC, hT]
  norm_num
  decide

theorem topClusters_T4 : topClusters tT4 = clT4 := by with_unfolding_all rfl

theorem ordered_T4 : orderedCpts tT4 = ["X", "Y", ":T", "C"] := by with_unfolding_all rfl

theorem sweepT4 : sweepAll tT4 =
    .ok ⟨mT4d, record0 tT4 (fun _ => ∅) "X" "Y",
      [("X", "X"), ("X", "Y"), ("Y", "Y"), ("Y", "C")]⟩ := by
  have s40 : pairStep tT4 clT4 0 "X" ⟨matEye, fun _ => ∅, []⟩ (0, "X")
      = .ok ⟨matSet matEye 0 0 1, fun _ => ∅, [("X", "X")]⟩ := by
    rw [pairStep_far tT4 clT4 0 "X" ⟨matEye, fun _ => ∅, []⟩ 0 "X" 1
      (by with_unfolding_all rfl) (by simp) hlinXX4 notclose_one]
    simp
  have s41 : pairStep tT4 clT4 0 "X" ⟨matSet matEye 0 0 1, fun _ => ∅, [("X", "X")]⟩ (1, "Y")
      = .ok ⟨matSet (matSet matEye 0 0 1) 0 1 0, record0 tT4 (fun _ => ∅) "X" "Y",
        [("X", "X"), ("X", "Y")]⟩ := by
    rw [pairStep_zero tT4 clT4 0 "X" ⟨matSet matEye 0 0 1, fun _ => ∅, [("X", "X")]⟩ 1 "Y" 0
      (by with_unfolding_all rfl) (by simp) hlinXY4 close_zero]
    simp
  have hrow0 : rowStep tT4 clT4 ["X", "Y", ":T", "C"] ⟨matEye, fun _ => ∅, []⟩ (0, "X")
      = .ok ⟨mT4a, record0 tT4 (fun _ => ∅) "X" "Y", [("X", "X"), ("X", "Y")]⟩ := by
    refine rowStep_eq tT4 clT4 ["X", "Y", ":T", "C"] _ 0 "X" clT4 matEye
      [(0, "X"), (1, "Y"), (2, ":T"), (3, "C")] _ (by with_unfolding_all rfl) rfl rfl ?_
    simp only [foldSteps]
    rw [s40]
    simp only [foldSteps]
    rw [s41]
    simp only [foldSteps]
    rfl
  have s42 : ∀ (m : Mat) (cs : List (URI × URI)),
      pairStep tT4 [{"C", "X", "Y"}] 1 "Y" ⟨m, record0 tT4 (fun _ => ∅) "X" "Y", cs⟩ (0, "Y")
      = .ok ⟨matSet m 1 0 1, record0 tT4 (fun _ => ∅) "X" "Y", cs ++ [("Y", "Y")]⟩ := by
    intro m cs
    rw [pairStep_far tT4 [{"C", "X", "Y"}] 1 "Y" ⟨m, record0 tT4 (fun _ => ∅) "X" "Y", cs⟩ 0 "Y" 1
      (by with_unfolding_all rfl)
      (by
        show ¬("Y" ∈ record0 tT4 (fun _ => ∅) "X" "Y" "Y" ∨
          "Y" ∈ record0 tT4 (fun _ => ∅) "X" "Y" "Y")
        with_unfolding_all decide) hlinYY4 notclose_one]
  have s43 : ∀ (m : Mat) (cs : List (URI × URI)),
      pairStep tT4 [{"C", "X", "Y"}] 1 "Y" ⟨m, record0 tT4 (fun _ => ∅) "X" "Y", cs⟩ (2, "C")
      = .ok ⟨matSet m 1 2 1, record0 tT4 (fun _ => ∅) "X" "Y", cs ++ [("Y", "C")]⟩ := by
    intro m cs
    rw [pairStep_far tT4 [{"C", "X", "Y"}] 1 "Y" ⟨m, record0 tT4 (fun _ => ∅) "X" "Y", cs⟩ 2 "C" 1
      (by with_unfolding_all rfl)
      (by
        show ¬("C" ∈ record0 tT4 (fun _ => ∅) "X" "Y" "Y" ∨
          "Y" ∈ record0 tT4 (fun _ => ∅) "X" "Y" "C")
        with_unfolding_all decide) hlinYC4 notclose_one]
  have hrow1 : rowStep tT4 clT4 ["X", "Y", ":T", "C"]
      ⟨mT4a, record0 tT4 (fun _ => ∅) "X" "Y", [("X", "X"), ("X", "Y")]⟩ (1, "Y")
      = .ok ⟨mT4b, record0 tT4 (fun _ => ∅) "X" "Y",
        [("X", "X"), ("X", "Y"), ("Y", "Y"), ("Y", "C")]⟩ := by
    refine rowStep_eq tT4 clT4 ["X", "Y", ":T", "C"] _ 1 "Y" [{"C", "X", "Y"}] mT4a
      [(0, "Y"), (1, ":T"), (2, "C")] _ (by with_unfolding_all rfl) rfl rfl ?_
    simp only [foldSteps]
    rw [s42]
    simp only [foldSteps]
    rw [s43]
    rfl
  have hrow2 : rowStep tT4 clT4 ["X", "Y", ":T", "C"]
      ⟨mT4b, record0 tT4 (fun _ => ∅) "X" "Y",
        [("X", "X"), ("X", "Y"), ("Y", "Y"), ("Y", "C")]⟩ (2, ":T")
      = .ok ⟨mT4c, record0 tT4 (fun _ => ∅) "X" "Y",
        [("X", "X"), ("X", "Y"), ("Y", "Y"), ("Y", "C")]⟩ := by
    refine rowStep_eq tT4 clT4 ["X", "Y", ":T", "C"] _ 2 ":T" [] (matSet mT4b 2 0 0)
      [(0, ":T"), (1, "C")] _ (by with_unfolding_all rfl) ?_ rfl ?_
    · show matSet mT4b 2 0 (mT4b 0 2) = matSet mT4b 2 0 0
      rw [show mT4b 0 2 = (0 : ℝ) from by norm_num [mT4b, mT4a, matSet, matEye]]
    · simp only [foldSteps]
      rfl
  have hrow3 : rowStep tT4 clT4 ["X", "Y", ":T", "C"]
      ⟨mT4c, record0 tT4 (fun _ => ∅) "X" "Y",
        [("X", "X"), ("X", "Y"), ("Y", "Y"), ("Y", "C")]⟩ (3, "C")
      = .ok ⟨mT4d, record0 tT4 (fun _ => ∅) "X" "Y",
        [("X", "X"), ("X", "Y"), ("Y", "Y"), ("Y", "C")]⟩ := by
    refine rowStep_eq tT4 clT4 ["X", "Y", ":T", "C"] _ 3 "C" [{"C", "X", "Y"}]
      (matSet (matSet mT4c 3 0 0) 3 1 0) [(0, "C")] _ (by with_unfolding_all rfl) ?_ rfl ?_
    · show matSet (matSet mT4c 3 0 (mT4c 0 3)) 3 1 ((matSet mT4c 3 0 (mT4c 0 3)) 1 3)
        = matSet (matSet mT4c 3 0 0) 3 1 0
      rw [show mT4c 0 3 = (0 : ℝ) from by norm_num [mT4c, mT4b, mT4a, matSet, matEye]]
      rw [show (matSet mT4c 3 0 0) 1 3 = (0 : ℝ) from by
        norm_num [mT4c, mT4b, mT4a, matSet, matEye]]
    · simp only [foldSteps]
      rfl
  simp only [sweepAll]
  rw [ordered_T4, topClusters_T4]
  rw [show ((["X", "Y", ":T", "C"] : List URI).enum)
    = [(0, "X"), (1, "Y"), (2, ":T"), (3, "C")] from rfl]
  simp only [List.foldl_cons, List.foldl_nil]
  simp only [hrow0]
  simp only [hrow1]
  simp only [hrow2]
  simp only [hrow3]


theorem closureAux_target (edges : List (URI × URI)) :
    ∀ (fuel : Nat) (frontier visited : List URI),
      (∀ y ∈ visited, ∃ e ∈ edges, e.2 = y) →
      ∀ x ∈ closureAux edges fuel frontier visited, ∃ e ∈ edges, e.2 = x := by
  intro fuel
  induction fuel with
  | zero => intro frontier visited hv x hx; exact hv x hx
  | succ n ih =>
    intro frontier visited hv x hx
    refine ih _ _ ?_ x hx
    intro y hy
    rcases List.mem_append.1 hy with h | h
    · exact hv y h
    · have h2 := List.mem_filter.1 h
      have h3 := List.mem_dedup.1 h2.1
      rcases List.mem_flatMap.1 h3 with ⟨c, _, hc2⟩
      rcases List.mem_map.1 hc2 with ⟨e, he1, he2⟩
      exact ⟨e, (List.mem_filter.1 he1).1, he2⟩

theorem closureFrom_target (edges : List (URI × URI)) (c : URI) :
    ∀ x ∈ closureFrom edges c, ∃ e ∈ edges, e.2 = x := by
  intro x hx
  refine closureAux_target edges edges.length _ _ ?_ x hx
  intro y hy
  rcases List.mem_map.1 (List.mem_dedup.1 hy) with ⟨e, he1, he2⟩
  exact ⟨e, (List.mem_filter.1 he1).1, he2⟩

theorem broaders_target (t : Thes) (c : URI) :
    ∀ x ∈ broaders t c, ∃ e ∈ t.broaderEdges, e.2 = x :=
  closureFrom_target t.broaderEdges c

theorem interAnc_mem (t : Thes) (a b x : URI) :
    x ∈ interAnc t a b ↔ x ∈ broaders t a ∧ x ∈ broaders t b := by
  constructor
  · intro hx
    have h := List.mem_filter.1 hx
    have h2 := h.2
    simp only [Bool.and_eq_true, decide_eq_true_eq] at h2
    exact h2
  · intro ⟨ha, hb⟩
    refine List.mem_filter.2 ⟨?_, by simp [ha, hb]⟩
    refine List.mem_dedup.2 ?_
    rcases broaders_target t a x ha with ⟨e, he1, he2⟩
    exact List.mem_map.2 ⟨e, he1, he2⟩

theorem minByFreq_fold (t : Thes) :
    ∀ (l : List URI) (p : URI × ℚ), p.2 = cumVal t p.1 none →
      (l.foldl (fun best y => if cumVal t y none < best.2 then (y, cumVal t y none) else best) p).2
        = cumVal t
          (l.foldl (fun best y => if cumVal t y none < best.2 then (y, cumVal t y none) else best) p).1 none ∧
      ((l.foldl (fun best y => if cumVal t y none < best.2 then (y, cumVal t y none) else best) p).1 = p.1 ∨
        (l.foldl (fun best y => if cumVal t y none < best.2 then (y, cumVal t y none) else best) p).1 ∈ l) ∧
      (l.foldl (fun best y => if cumVal t y none < best.2 then (y, cumVal t y none) else best) p).2 ≤ p.2 ∧
      ∀ y ∈ l,
        (l.foldl (fun best y => if cumVal t y none < best.2 then (y, cumVal t y none) else best) p).2
          ≤ cumVal t y none := by
  intro l
  induction l with
  | nil => intro p hp; exact ⟨hp, Or.inl rfl, le_refl _, by simp⟩
  | cons z zs ih =>
    intro p hp
    simp only [List.foldl_cons]
    by_cases hz : cumVal t z none < p.2
    · rw [if_pos hz]
      rcases ih (z, cumVal t z none) rfl with ⟨h1, h2, h3, h4⟩
      refine ⟨h1, ?_, le_trans h3 (le_of_lt hz), ?_⟩
      · rcases h2 with h | h
        · exact Or.inr (by simp [h])
        · exact Or.inr (List.mem_cons_of_mem _ h)
      · intro y hy
        rcases List.mem_cons.1 hy with h | h
        · subst h; exact h3
        · exact h4 y h
    · rw [if_neg hz]
      rcases ih p hp with ⟨h1, h2, h3, h4⟩
      refine ⟨h1, ?_, h3, ?_⟩
      · rcases h2 with h | h
        · exact Or.inl h
        · exact Or.inr (List.mem_cons_of_mem _ h)
      · intro y hy
        rcases List.mem_cons.1 hy with h | h
        · subst h; exact le_trans h3 (not_lt.1 hz)
        · exact h4 y h

theorem minByFreq_spec (t : Thes) (l : List URI) (p : URI × ℚ)
    (h : minByFreq t l = some p) :
    p.1 ∈ l ∧ p.2 = cumVal t p.1 none ∧ ∀ y ∈ l, p.2 ≤ cumVal t y none := by
  match l, h with
  | x :: xs, h =>
    simp only [minByFreq, Option.some.injEq] at h
    subst h
    rcases minByFreq_fold t xs (x, cumVal t x none) rfl with ⟨h1, h2, h3, h4⟩
    refine ⟨?_, h1, ?_⟩
    · rcases h2 with h | h
      · simp [h]
      · exact List.mem_cons_of_mem _ h
    · intro y hy
      rcases List.mem_cons.1 hy with h | h
      · subst h; exact h3
      · exact h4 y h

theorem minByFreq_none (t : Thes) (l : List URI) (h : minByFreq t l = none) : l = [] := by
  match l, h with
  | [], _ => rfl

theorem get_lcs_cases (t : Thes) (a b : URI) :
    (a = b → get_lcs t a b = (a, ((cumVal t a none : ℚ) : WithTop ℚ))) ∧
    (a ≠ b → a ∈ broaders t b → get_lcs t a b = (a, ((cumVal t a none : ℚ) : WithTop ℚ))) ∧
    (a ≠ b → a ∉ broaders t b → b ∈ broaders t a →
      get_lcs t a b = (b, ((cumVal t b none : ℚ) : WithTop ℚ))) ∧
    (a ≠ b → a ∉ broaders t b → b ∉ broaders t a →
      (∃ x, x ∈ broaders t a ∧ x ∈ broaders t b) →
      ((get_lcs t a b).1 ∈ broaders t a ∧ (get_lcs t a b).1 ∈ broaders t b ∧
        (get_lcs t a b).2 = (cumVal t (get_lcs t a b).1 none : ℚ) ∧
        ∀ x, x ∈ broaders t a → x ∈ broaders t b →
          (get_lcs t a b).2 ≤ (cumVal t x none : ℚ))) ∧
    (a ≠ b → a ∉ broaders t b → b ∉ broaders t a →
      (∀ x, ¬ (x ∈ broaders t a ∧ x ∈ broaders t b)) →
      get_lcs t a b = (t.topUri, ⊤)) := by
  refine ⟨?_, ?_, ?_, ?_, ?_⟩
  · intro hab
    unfold get_lcs
    rw [if_pos hab]
  · intro hab h1
    unfold get_lcs
    rw [if_neg hab, if_pos h1]
  · intro hab h1 h2
    unfold get_lcs
    rw [if_neg hab, if_neg h1, if_pos h2]
  · intro hab h1 h2 hex
    unfold get_lcs
    rw [if_neg hab, if_neg h1, if_neg h2]
    cases hm : minByFreq t (interAnc t a b) with
    | none =>
      exfalso
      rcases hex with ⟨x, hx1, hx2⟩
      have : x ∈ interAnc t a b := (interAnc_mem t a b x).2 ⟨hx1, hx2⟩
      rw [minByFreq_none t _ hm] at this
      exact absurd this (List.not_mem_nil x)
    | some p =>
      rcases minByFreq_spec t _ p hm with ⟨hp1, hp2, hp3⟩
      rcases (interAnc_mem t a b p.1).1 hp1 with ⟨hpa, hpb⟩
      refine ⟨hpa, hpb, ?_, ?_⟩
      · simp only [hp2]
      · intro x hxa hxb
        have hx : x ∈ interAnc t a b := (interAnc_mem t a b x).2 ⟨hxa, hxb⟩
        simp only [WithTop.coe_le_coe]
        exact hp3 x hx
  · intro hab h1 h2 hempty
    unfold get_lcs
    rw [if_neg hab, if_neg h1, if_neg h2]
    cases hm : minByFreq t (interAnc t a b) with
    | none => rfl
    | some p =>
      exfalso
      rcases minByFreq_spec t _ p hm with ⟨hp1, _, _⟩
      exact hempty p.1 ((interAnc_mem t a b p.1).1 hp1)

/-- C4: `get_lcs` returns, in the priority order of the code, the concept
itself on identity; the argument that is an ancestor of the other,
together with its cumulative frequency; otherwise some common ancestor of
minimal cumulative frequency together with that frequency; and the root
with infinite frequency when no common ancestor exists, without raising. -/
theorem claim_C4_lcs (t : Thes) (a b : URI) :
    (a = b → get_lcs t a b = (a, ((cumVal t a none : ℚ) : WithTop ℚ))) ∧
    (a ≠ b → a ∈ broaders t b → get_lcs t a b = (a, ((cumVal t a none : ℚ) : WithTop ℚ))) ∧
    (a ≠ b → a ∉ broaders t b → b ∈ broaders t a →
      get_lcs t a b = (b, ((cumVal t b none : ℚ) : WithTop ℚ))) ∧
    (a ≠ b → a ∉ broaders t b → b ∉ broaders t a →
      (∃ x, x ∈ broaders t a ∧ x ∈ broaders t b) →
      ((get_lcs t a b).1 ∈ broaders t a ∧ (get_lcs t a b).1 ∈ broaders t b ∧
        (get_lcs t a b).2 = (cumVal t (get_lcs t a b).1 none : ℚ) ∧
        ∀ x, x ∈ broaders t a → x ∈ broaders t b →
          (get_lcs t a b).2 ≤ (cumVal t x none : ℚ))) ∧
    (a ≠ b → a ∉ broaders t b → b ∉ broaders t a →
      (∀ x, ¬ (x ∈ broaders t a ∧ x ∈ broaders t b)) →
      get_lcs t a b = (t.topUri, ⊤)) :=
  get_lcs_cases t a b

/-- Witness for C4: in `tT4`, `C` is an ancestor of `Y`, and the LCS of
`(Y, C)` is `C` with its cumulative frequency 10. -/
theorem claim_C4_lcs_witness :
    (("Y" : URI) ≠ "C") ∧ ("Y" : URI) ∉ broaders tT4 "C" ∧ ("C" : URI) ∈ broaders tT4 "Y" ∧
    get_lcs tT4 "Y" "C" = ("C", ((10 : ℚ) : WithTop ℚ)) := by
  refine ⟨by decide, by with_unfolding_all decide, by with_unfolding_all decide, ?_⟩
  rw [(claim_C4_lcs tT4 "Y" "C").2.2.1 (by decide) (by with_unfolding_all decide)
    (by with_unfolding_all decide)]
  with_unfolding_all rfl

theorem interAnc_comm (t : Thes) (a b : URI) : interAnc t a b = interAnc t b a := by
  unfold interAnc
  refine List.filter_congr ?_
  intro x _
  rw [Bool.and_comm]

theorem get_lcs_comm (t : Thes) (a b : URI) (hab : a ≠ b)
    (hcy : ¬ (a ∈ broaders t b ∧ b ∈ broaders t a)) :
    get_lcs t a b = get_lcs t b a := by
  unfold get_lcs
  rw [if_neg hab, if_neg (Ne.symm hab)]
  by_cases h1 : a ∈ broaders t b
  · have h2 : b ∉ broaders t a := fun hb => hcy ⟨h1, hb⟩
    rw [if_pos h1, if_neg h2, if_pos h1]
  · by_cases h2 : b ∈ broaders t a
    · rw [if_neg h1, if_pos h2, if_pos h2]
    · rw [if_neg h1, if_neg h2, if_neg h2, if_neg h1, interAnc_comm]

/-- C5: `get_lin_similarity` is symmetric in its two arguments. The only
hypothesis is the DAG invariant of the data model for the pair at hand
(the two concepts are not ancestors of each other simultaneously); with a
broader-cycle through both, the code would pick a different LCS per order. -/
theorem claim_C5_sym (t : Thes) (a b : URI)
    (hcy : ¬ (a ∈ broaders t b ∧ b ∈ broaders t a)) :
    get_lin_similarity t a b = get_lin_similarity t b a := by
  by_cases hab : a = b
  · subst hab; rfl
  · have hlcs := get_lcs_comm t a b hab hcy
    simp only [get_lin_similarity]
    rw [if_neg hab, if_neg (Ne.symm hab), hlcs]
    rw [add_comm (Real.log ((cumVal t a none : ℝ) / (cumVal t t.topUri none : ℝ)))
      (Real.log ((cumVal t b none : ℝ) / (cumVal t t.topUri none : ℝ)))]

/-- Witness for C5 on `tT3` and the pair `(A, B)`. -/
theorem claim_C5_sym_witness :
    (¬ (("A" : URI) ∈ broaders tT3 "B" ∧ ("B" : URI) ∈ broaders tT3 "A")) ∧
    get_lin_similarity tT3 "A" "B" = get_lin_similarity tT3 "B" "A" :=
  ⟨by with_unfolding_all decide,
   claim_C5_sym tT3 "A" "B" (by with_unfolding_all decide)⟩

theorem lin_ok_bounds (t : Thes) (a b : URI) (r : ℝ)
    (h : get_lin_similarity t a b = .ok r) : 0 ≤ r ∧ r ≤ 1 := by
  simp only [get_lin_similarity] at h
  split at h
  · simp only [Except.ok.injEq] at h
    refine ⟨by rw [← h]; norm_num, by rw [← h]⟩
  · split at h
    · simp only [Except.ok.injEq] at h
      refine ⟨by rw [← h], by rw [← h]; norm_num⟩
    · split at h
      · split at h
        · simp only [Except.ok.injEq] at h
          refine ⟨by rw [← h]; norm_num, by rw [← h]⟩
        · exact absurd h (by simp)
      · split at h
        · simp only [Except.ok.injEq] at h
          refine ⟨by rw [← h]; norm_num, by rw [← h]⟩
        · split at h
          · next hb =>
            simp only [Except.ok.injEq] at h
            exact h ▸ hb
          · exact absurd h (by simp)

theorem lcs_struct (t : Thes) (a b : URI) (hab : a ≠ b)
    (ha : a ∈ allConcepts t) (hb : b ∈ allConcepts t)
    (hedge : ∀ e ∈ t.broaderEdges, e.2 ∈ allConcepts t)
    (hmono : ∀ c ∈ allConcepts t, ∀ x ∈ broaders t c, cumVal t c none ≤ cumVal t x none) :
    (get_lcs t a b).1 = t.topUri ∨
    ((get_lcs t a b).2 = ((cumVal t (get_lcs t a b).1 none : ℚ) : WithTop ℚ) ∧
      (get_lcs t a b).1 ∈ allConcepts t ∧
      cumVal t a none ≤ cumVal t (get_lcs t a b).1 none ∧
      cumVal t b none ≤ cumVal t (get_lcs t a b).1 none) := by
  by_cases h1 : a ∈ broaders t b
  · right
    rw [(get_lcs_cases t a b).2.1 hab h1]
    exact ⟨rfl, ha, le_refl _, hmono b hb a h1⟩
  by_cases h2 : b ∈ broaders t a
  · right
    rw [(get_lcs_cases t a b).2.2.1 hab h1 h2]
    exact ⟨rfl, hb, hmono a ha b h2, le_refl _⟩
  by_cases hex : ∃ x, x ∈ broaders t a ∧ x ∈ broaders t b
  · right
    rcases (get_lcs_cases t a b).2.2.2.1 hab h1 h2 hex with ⟨hla, hlb, hf, _⟩
    have hlc : (get_lcs t a b).1 ∈ allConcepts t := by
      rcases broaders_target t a _ hla with ⟨e, he1, he2⟩
      exact he2 ▸ hedge e he1
    exact ⟨hf, hlc, hmono a ha _ hla, hmono b hb _ hlb⟩
  · left
    rw [(get_lcs_cases t a b).2.2.2.2 hab h1 h2 (by push_neg at hex; intro x hx; exact absurd hx.2 (hex x hx.1))]

theorem lin_log_one (t : Thes) (a b : URI) (q : ℚ) (hab : a ≠ b)
    (hl : ¬ (get_lcs t a b).1 = t.topUri)
    (hf : (get_lcs t a b).2 = ((q : ℚ) : WithTop ℚ))
    (hsum : Real.log ((cumVal t a none : ℝ) / (cumVal t t.topUri none : ℝ))
      + Real.log ((cumVal t b none : ℝ) / (cumVal t t.topUri none : ℝ)) = 0) :
    get_lin_similarity t a b = .ok 1 := by
  simp only [get_lin_similarity]
  rw [if_neg hab, if_neg hl, hf]
  show (if Real.log ((cumVal t a none : ℝ) / (cumVal t t.topUri none : ℝ))
      + Real.log ((cumVal t b none : ℝ) / (cumVal t t.topUri none : ℝ)) = 0
    then (Except.ok 1 : Except String ℝ)
    else
      if 0 ≤ 2 * Real.log ((q : ℝ) / (cumVal t t.topUri none : ℝ))
          / (Real.log ((cumVal t a none : ℝ) / (cumVal t t.topUri none : ℝ))
            + Real.log ((cumVal t b none : ℝ) / (cumVal t t.topUri none : ℝ))) ∧
        2 * Real.log ((q : ℝ) / (cumVal t t.topUri none : ℝ))
          / (Real.log ((cumVal t a none : ℝ) / (cumVal t t.topUri none : ℝ))
            + Real.log ((cumVal t b none : ℝ) / (cumVal t t.topUri none : ℝ))) ≤ 1
      then .ok (2 * Real.log ((q : ℝ) / (cumVal t t.topUri none : ℝ))
          / (Real.log ((cumVal t a none : ℝ) / (cumVal t t.topUri none : ℝ))
            + Real.log ((cumVal t b none : ℝ) / (cumVal t t.topUri none : ℝ))))
      else .error "AssertionError") = .ok 1
  rw [if_pos hsum]

theorem lin_log_score (t : Thes) (a b : URI) (q : ℚ) (hab : a ≠ b)
    (hl : ¬ (get_lcs t a b).1 = t.topUri)
    (hf : (get_lcs t a b).2 = ((q : ℚ) : WithTop ℚ))
    (hsum : ¬ (Real.log ((cumVal t a none : ℝ) / (cumVal t t.topUri none : ℝ))
      + Real.log ((cumVal t b none : ℝ) / (cumVal t t.topUri none : ℝ)) = 0))
    (hok : 0 ≤ 2 * Real.log ((q : ℝ) / (cumVal t t.topUri none : ℝ))
        / (Real.log ((cumVal t a none : ℝ) / (cumVal t t.topUri none : ℝ))
          + Real.log ((cumVal t b none : ℝ) / (cumVal t t.topUri none : ℝ))) ∧
      2 * Real.log ((q : ℝ) / (cumVal t t.topUri none : ℝ))
        / (Real.log ((cumVal t a none : ℝ) / (cumVal t t.topUri none : ℝ))
          + Real.log ((cumVal t b none : ℝ) / (cumVal t t.topUri none : ℝ))) ≤ 1) :
    get_lin_similarity t a b = .ok (2 * Real.log ((q : ℝ) / (cumVal t t.topUri none : ℝ))
      / (Real.log ((cumVal t a none : ℝ) / (cumVal t t.topUri none : ℝ))
        + Real.log ((cumVal t b none : ℝ) / (cumVal t t.topUri none : ℝ)))) := by
  simp only [get_lin_similarity]
  rw [if_neg hab, if_neg hl, hf]
  show (if Real.log ((cumVal t a none : ℝ) / (cumVal t t.topUri none : ℝ))
      + Real.log ((cumVal t b none : ℝ) / (cumVal t t.topUri none : ℝ)) = 0
    then (Except.ok 1 : Except String ℝ)
    else
      if 0 ≤ 2 * Real.log ((q : ℝ) / (cumVal t t.topUri none : ℝ))
          / (Real.log ((cumVal t a none : ℝ) / (cumVal t t.topUri none : ℝ))
            + Real.log ((cumVal t b none : ℝ) / (cumVal t t.topUri none : ℝ))) ∧
        2 * Real.log ((q : ℝ) / (cumVal t t.topUri none : ℝ))
          / (Real.log ((cumVal t a none : ℝ) / (cumVal t t.topUri none : ℝ))
            + Real.log ((cumVal t b none : ℝ) / (cumVal t t.topUri none : ℝ))) ≤ 1
      then .ok (2 * Real.log ((q : ℝ) / (cumVal t t.topUri none : ℝ))
          / (Real.log ((cumVal t a none : ℝ) / (cumVal t t.topUri none : ℝ))
            + Real.log ((cumVal t b none : ℝ) / (cumVal t t.topUri none : ℝ))))
      else .error "AssertionError")
    = .ok (2 * Real.log ((q : ℝ) / (cumVal t t.topUri none : ℝ))
      / (Real.log ((cumVal t a none : ℝ) / (cumVal t t.topUri none : ℝ))
        + Real.log ((cumVal t b none : ℝ) / (cumVal t t.topUri none : ℝ))))
  rw [if_neg hsum, if_pos hok]

/-- C3: under the data-model invariants (edge targets are concepts, the
root is an ancestor of every other concept, cumulative frequencies are
positive) and the monotonicity hypothesis of the claim (every ancestor at
least as frequent as each descendant), `get_lin_similarity` returns a
score in the closed interval from 0 to 1 and does not raise; and
independently of the hypotheses, whenever it returns a value at all, that
value lies in the interval — a score outside it trips the assert and
raises instead of being clamped. -/
theorem claim_C3_bounds (t : Thes) (a b : URI)
    (ha : a ∈ allConcepts t) (hb : b ∈ allConcepts t)
    (htopc : t.topUri ∈ allConcepts t)
    (hedge : ∀ e ∈ t.broaderEdges, e.2 ∈ allConcepts t)
    (hroot : ∀ c ∈ allConcepts t, c = t.topUri ∨ t.topUri ∈ broaders t c)
    (hpos : ∀ c ∈ allConcepts t, 0 < cumVal t c none)
    (hmono : ∀ c ∈ allConcepts t, ∀ x ∈ broaders t c, cumVal t c none ≤ cumVal t x none) :
    (∃ r : ℝ, get_lin_similarity t a b = .ok r ∧ 0 ≤ r ∧ r ≤ 1) ∧
    (∀ r : ℝ, get_lin_similarity t a b = .ok r → 0 ≤ r ∧ r ≤ 1) := by
  refine ⟨?_, fun r h => lin_ok_bounds t a b r h⟩
  by_cases hab : a = b
  · refine ⟨1, ?_, by norm_num, le_refl 1⟩
    simp only [get_lin_similarity]
    rw [if_pos hab]
  by_cases hl : (get_lcs t a b).1 = t.topUri
  · refine ⟨0, ?_, le_refl 0, by norm_num⟩
    simp only [get_lin_similarity]
    rw [if_neg hab, if_pos hl]
  rcases lcs_struct t a b hab ha hb hedge hmono with h | ⟨hf, hlc, hfa, hfb⟩
  · exact absurd h hl
  have hqa := hpos a ha
  have hqb := hpos b hb
  have hqt := hpos _ htopc
  have hql := hpos _ hlc
  have hle_top : ∀ c ∈ allConcepts t, cumVal t c none ≤ cumVal t t.topUri none := fun c hc =>
    (hroot c hc).elim (fun h => h ▸ le_refl _) (fun h => hmono c hc _ h)
  have hFA : (0 : ℝ) < (cumVal t a none : ℝ) := by exact_mod_cast hqa
  have hFB : (0 : ℝ) < (cumVal t b none : ℝ) := by exact_mod_cast hqb
  have hFT : (0 : ℝ) < (cumVal t t.topUri none : ℝ) := by exact_mod_cast hqt
  have hFL : (0 : ℝ) < (cumVal t (get_lcs t a b).1 none : ℝ) := by exact_mod_cast hql
  have hAL : (cumVal t a none : ℝ) ≤ (cumVal t (get_lcs t a b).1 none : ℝ) := by
    exact_mod_cast hfa
  have hBL : (cumVal t b none : ℝ) ≤ (cumVal t (get_lcs t a b).1 none : ℝ) := by
    exact_mod_cast hfb
  have hLT : (cumVal t (get_lcs t a b).1 none : ℝ) ≤ (cumVal t t.topUri none : ℝ) := by
    exact_mod_cast hle_top _ hlc
  set u := Real.log ((cumVal t a none : ℝ) / (cumVal t t.topUri none : ℝ)) with hu
  set v := Real.log ((cumVal t b none : ℝ) / (cumVal t t.topUri none : ℝ)) with hv
  set w := Real.log ((cumVal t (get_lcs t a b).1 none : ℝ) / (cumVal t t.topUri none : ℝ)) with hw
  have huw : u ≤ w := Real.log_le_log (div_pos hFA hFT) ((div_le_div_iff_of_pos_right hFT).2 hAL)
  have hvw : v ≤ w := Real.log_le_log (div_pos hFB hFT) ((div_le_div_iff_of_pos_right hFT).2 hBL)
  have hw0 : w ≤ 0 := Real.log_nonpos (le_of_lt (div_pos hFL hFT)) ((div_le_one hFT).2 hLT)
  have hu0 : u ≤ 0 := le_trans huw hw0
  have hv0 : v ≤ 0 := le_trans hvw hw0
  by_cases hsum : u + v = 0
  · exact ⟨1, lin_log_one t a b _ hab hl hf hsum, by norm_num, le_refl 1⟩
  · have hneg : u + v < 0 := lt_of_le_of_ne (by linarith) hsum
    have h0 : 0 ≤ 2 * w / (u + v) := by
      rw [div_nonneg_iff]
      right
      exact ⟨by linarith, le_of_lt hneg⟩
    have h1 : 2 * w / (u + v) ≤ 1 := (div_le_iff_of_neg hneg).2 (by linarith)
    exact ⟨2 * w / (u + v), lin_log_score t a b _ hab hl hf hsum ⟨h0, h1⟩, h0, h1⟩

/-- Witness for C3 on the concrete taxonomy `tT4` and the pair `(X, Y)`. -/
theorem claim_C3_bounds_witness :
    (∀ c ∈ allConcepts tT4, 0 < cumVal tT4 c none) ∧
    (∀ c ∈ allConcepts tT4, ∀ x ∈ broaders tT4 c, cumVal tT4 c none ≤ cumVal tT4 x none) ∧
    ((∃ r : ℝ, get_lin_similarity tT4 "X" "Y" = .ok r ∧ 0 ≤ r ∧ r ≤ 1) ∧
      (∀ r : ℝ, get_lin_similarity tT4 "X" "Y" = .ok r → 0 ≤ r ∧ r ≤ 1)) :=
  ⟨by with_unfolding_all decide, by with_unfolding_all decide,
    claim_C3_bounds tT4 "X" "Y" (by with_unfolding_all decide) (by with_unfolding_all decide)
      (by with_unfolding_all decide) (by with_unfolding_all decide)
      (by with_unfolding_all decide) (by with_unfolding_all decide)
      (by with_unfolding_all decide)⟩

/-- C2: the claim states that every call to `add_frequencies(c, k)` adds
`k` to the own frequency of `c` and to the cumulative frequency of `c` and
each ancestor, including repeated calls. The first call on the chain
`:T -> A` behaves as claimed (stored cumulative frequencies become 1), and
own frequency accumulates to 2 after the second call, but the stored and
returned cumulative frequencies of `A` and `:T` are still 1 after two
calls of `add_frequencies(A, 1)` — the second call reads the stale
`lru_cache` entry populated by the first call rather than the updated
store — where the claim requires 2. -/
theorem claim_C2_staleness :
    lookupStore (add_frequencies tC2 "A" 1).cumFreqStore "A" = some 1 ∧
    lookupStore (add_frequencies tC2 "A" 1).cumFreqStore ":T" = some 1 ∧
    lookupStore (add_frequencies tC2 "A" 1).ownFreqStore "A" = some 1 ∧
    lookupStore (add_frequencies (add_frequencies tC2 "A" 1) "A" 1).ownFreqStore "A" = some 2 ∧
    lookupStore (add_frequencies (add_frequencies tC2 "A" 1) "A" 1).cumFreqStore "A" = some 1 ∧
    lookupStore (add_frequencies (add_frequencies tC2 "A" 1) "A" 1).cumFreqStore ":T" = some 1 ∧
    cumVal (add_frequencies (add_frequencies tC2 "A" 1) "A" 1) "A" none = 1 := by
  with_unfolding_all decide

/-- C9: the claim states that `get_importance_ranking` raises an error
naming the offending method for unsupported methods and succeeds for pr
and betweenness. In the code as shipped, `get_pref_label` is commented out
(source lines 115-117), so every call — the unsupported method, pr, and
betweenness alike — raises `AttributeError` while building the node list,
before the method dispatch is ever reached; the raised error is not the
not-implemented exception and its message does not name the method. -/
theorem claim_C9_attribute_error :
    get_importance_ranking freshThes "eigenvector" =
      .error (.attributeError "Thesaurus object has no attribute get_pref_label") ∧
    get_importance_ranking freshThes "pr" =
      .error (.attributeError "Thesaurus object has no attribute get_pref_label") ∧
    get_importance_ranking freshThes "betweenness" =
      .error (.attributeError "Thesaurus object has no attribute get_pref_label") ∧
    (PyErr.attributeError "Thesaurus object has no attribute get_pref_label" ≠
      PyErr.exception "Method eigenvector not implemented yet") := by
  refine ⟨rfl, rfl, rfl, by decide⟩

theorem lookupMemo_cons_ne (m : List ((URI × Option ℚ) × ℚ)) (k k' : URI × Option ℚ) (v : ℚ)
    (h : ¬ k' = k) : lookupMemo ((k', v) :: m) k = lookupMemo m k := by
  unfold lookupMemo
  rw [List.find?_cons_of_neg _ (by simp [h])]

theorem lookupMemo_cons_self (m : List ((URI × Option ℚ) × ℚ)) (k : URI × Option ℚ) (v : ℚ) :
    lookupMemo ((k, v) :: m) k = some v := by
  unfold lookupMemo
  rw [List.find?_cons_of_pos _ (by simp)]

theorem lookupStore_set_self (s : List (URI × ℚ)) (c : URI) (v : ℚ) :
    lookupStore (setStore s c v) c = some v := by
  unfold lookupStore setStore
  rw [List.find?_cons_of_pos _ (by simp)]

theorem getCum_memo_self (t : Thes) (c : URI) :
    lookupMemo (getCumulativeFreqOp t c none).2.cumMemo (c, none)
      = some (getCumulativeFreqOp t c none).1 := by
  unfold getCumulativeFreqOp cumVal
  cases hm : lookupMemo t.cumMemo (c, none) with
  | some v => simp [hm]
  | none => simp [hm, lookupMemo_cons_self]

theorem getCum_val_of_memo (t : Thes) (c : URI) (v : ℚ)
    (h : lookupMemo t.cumMemo (c, none) = some v) :
    (getCumulativeFreqOp t c none).1 = v := by
  unfold getCumulativeFreqOp cumVal
  rw [h]

theorem addF_fold_memo (c : URI) (k : ℚ) :
    ∀ (l : List URI) (acc : Thes),
      lookupMemo ((l.foldl (fun acc uri =>
          let r := getCumulativeFreqOp acc uri (some 0)
          { r.2 with cumFreqStore := setStore r.2.cumFreqStore uri (r.1 + k) }) acc).cumMemo)
        (c, none)
      = lookupMemo acc.cumMemo (c, none) := by
  intro l
  induction l with
  | nil => intro acc; rfl
  | cons x xs ih =>
    intro acc
    rw [List.foldl_cons, ih]
    show lookupMemo (getCumulativeFreqOp acc x (some 0)).2.cumMemo (c, none)
      = lookupMemo acc.cumMemo (c, none)
    unfold getCumulativeFreqOp
    cases hm : lookupMemo acc.cumMemo (x, some 0) with
    | some v => simp [hm]
    | none =>
      simp only [hm]
      exact lookupMemo_cons_ne _ _ _ _ (by simp)

theorem addF_fold_own (k : ℚ) :
    ∀ (l : List URI) (acc : Thes),
      (l.foldl (fun acc uri =>
          let r := getCumulativeFreqOp acc uri (some 0)
          { r.2 with cumFreqStore := setStore r.2.cumFreqStore uri (r.1 + k) }) acc).ownFreqStore
      = acc.ownFreqStore := by
  intro l
  induction l with
  | nil => intro acc; rfl
  | cons x xs ih =>
    intro acc
    rw [List.foldl_cons, ih]
    show (getCumulativeFreqOp acc x (some 0)).2.ownFreqStore = acc.ownFreqStore
    unfold getCumulativeFreqOp
    cases hm : lookupMemo acc.cumMemo (x, some 0) with
    | some v => simp [hm]
    | none => simp [hm]

theorem pre_fold_memo :
    ∀ (l : List URI) (acc : Thes),
      (l.foldl (fun acc c =>
          { acc with cumFreqStore := setStore acc.cumFreqStore c ((narrowersStar acc c).length : ℚ) })
        acc).cumMemo
      = acc.cumMemo := by
  intro l
  induction l with
  | nil => intro acc; rfl
  | cons x xs ih => intro acc; rw [List.foldl_cons, ih]

theorem applyOp_memo (s : Thes) (op : FreqOp) (c : URI) (v : ℚ)
    (h : lookupMemo s.cumMemo (c, none) = some v) :
    lookupMemo (applyOp s op).cumMemo (c, none) = some v := by
  cases op with
  | addF c' k =>
    show lookupMemo (add_frequencies s c' k).cumMemo (c, none) = some v
    unfold add_frequencies
    rw [addF_fold_memo]
    exact h
  | precompute =>
    show lookupMemo (precompute_number_children s).cumMemo (c, none) = some v
    unfold precompute_number_children
    rw [pre_fold_memo]
    exact h

/-- C10: once `get_cumulative_freq(c)` (single-argument form) has been
evaluated, every later single-argument call on the same instance returns
the same value, no matter which sequence of `add_frequencies` or
`precompute_number_children` calls has modified the stored
cumulative-frequency triples in between — the `lru_cache` entry is never
invalidated. By contrast `get_own_freq` always reads the current store:
right after `add_frequencies(c, k)` it returns the old value plus `k`. -/
theorem claim_C10_memoized (t : Thes) (c : URI) (ops : List FreqOp) :
    (getCumulativeFreqOp (applyOps (getCumulativeFreqOp t c none).2 ops) c none).1
      = (getCumulativeFreqOp t c none).1 ∧
    (∀ (s : Thes) (k : ℚ), ownVal (add_frequencies s c k) c 0 = ownVal s c 0 + k) := by
  constructor
  · have hinv : ∀ (l : List FreqOp) (s : Thes) (v : ℚ),
        lookupMemo s.cumMemo (c, none) = some v →
        lookupMemo (applyOps s l).cumMemo (c, none) = some v := by
      intro l
      induction l with
      | nil => intro s v h; exact h
      | cons op rest ih =>
        intro s v h
        show lookupMemo ((op :: rest).foldl applyOp s).cumMemo (c, none) = some v
        rw [List.foldl_cons]
        exact ih _ v (applyOp_memo s op c v h)
    exact getCum_val_of_memo _ c _ (hinv ops _ _ (getCum_memo_self t c))
  · intro s k
    show ownVal (add_frequencies s c k) c 0 = ownVal s c 0 + k
    unfold add_frequencies ownVal
    rw [addF_fold_own]
    show (lookupStore (setStore s.ownFreqStore c (ownVal s c 0 + k)) c).getD 0
      = (lookupStore s.ownFreqStore c).getD 0 + k
    rw [lookupStore_set_self]
    rfl

theorem innerFold_entry (i : Nat) (row : List (Nat × ℚ)) :
    ∀ (k : Nat) (m : Nat → Nat → ℚ) (a b : Nat),
      ((List.range k).foldl
          (fun m j => match lookupNat row j with | none => m | some v => qMatSet m i j v) m) a b
      = match (if a = i ∧ b < k then lookupNat row b else none) with
        | none => m a b
        | some v => v := by
  intro k
  induction k with
  | zero =>
    intro m a b
    simp
  | succ n ih =>
    intro m a b
    rw [List.range_succ, List.foldl_append, List.foldl_cons, List.foldl_nil]
    cases hr : lookupNat row n with
    | none =>
      simp only [hr]
      rw [ih]
      by_cases hai : a = i
      · by_cases hbk : b = n
        · subst hai hbk
          simp [hr]
        · have : (a = i ∧ b < n) ↔ (a = i ∧ b < n + 1) := by
            constructor
            · rintro ⟨h1, h2⟩; exact ⟨h1, by omega⟩
            · rintro ⟨h1, h2⟩; exact ⟨h1, by omega⟩
          simp only [this]
      · simp [hai]
    | some v =>
      simp only [hr, qMatSet]
      by_cases hab : a = i ∧ b = n
      · rw [if_pos hab, if_pos ⟨hab.1, by omega⟩, hab.2, hr]
      · rw [if_neg hab, ih]
        by_cases hai : a = i
        · by_cases hbk : b = n
          · exact absurd ⟨hai, hbk⟩ hab
          · have : (a = i ∧ b < n) ↔ (a = i ∧ b < n + 1) := by
              constructor
              · rintro ⟨h1, h2⟩; exact ⟨h1, by omega⟩
              · rintro ⟨h1, h2⟩; exact ⟨h1, by omega⟩
            simp only [this]
        · simp [hai]

theorem outerFold_entry (d : List (Nat × List (Nat × ℚ))) (n : Nat) :
    ∀ (k : Nat) (m : Nat → Nat → ℚ) (a b : Nat),
      ((List.range k).foldl
          (fun m i =>
            match lookupNat d i with
            | none => m
            | some row =>
              (List.range n).foldl
                (fun m j => match lookupNat row j with | none => m | some v => qMatSet m i j v) m)
          m) a b
      = match (if a < k ∧ b < n then
            (match lookupNat d a with
             | none => none
             | some row => lookupNat row b)
          else none) with
        | none => m a b
        | some v => v := by
  intro k
  induction k with
  | zero =>
    intro m a b
    simp
  | succ p ih =>
    intro m a b
    rw [List.range_succ, List.foldl_append, List.foldl_cons, List.foldl_nil]
    cases hd : lookupNat d p with
    | none =>
      simp only [hd]
      rw [ih]
      by_cases hap : a = p
      · subst hap
        simp [hd]
      · have : (a < p ∧ b < n) ↔ (a < p + 1 ∧ b < n) := by
          constructor
          · rintro ⟨h1, h2⟩; exact ⟨by omega, h2⟩
          · rintro ⟨h1, h2⟩; exact ⟨by omega, h2⟩
        simp only [this]
    | some row =>
      simp only [hd]
      rw [innerFold_entry, ih]
      by_cases hap : a = p
      · subst hap
        have h1 : ¬ (a < a ∧ b < n) := by omega
        rw [if_neg h1]
        by_cases hbn : b < n
        · rw [if_pos ⟨rfl, hbn⟩, if_pos ⟨by omega, hbn⟩, hd]
        · rw [if_neg (by intro h; exact hbn h.2), if_neg (by intro h; exact hbn h.2)]
      · have h1 : ¬ (a = p ∧ b < n) := by intro h; exact hap h.1
        rw [if_neg h1]
        have : (a < p ∧ b < n) ↔ (a < p + 1 ∧ b < n) := by
          constructor
          · rintro ⟨h1, h2⟩; exact ⟨by omega, h2⟩
          · rintro ⟨h1, h2⟩; exact ⟨by omega, h2⟩
        simp only [this]

/-- C8 counterexample: a legacy nested mapping with exactly two row keys
is not converted; `len(unpickled) == 2` misclassifies it as the canonical
pair and tuple unpacking binds the two row keys (0 and 1) to the result
variables, so the loader returns those keys instead of the converted
matrix. -/
theorem claim_C8_counterexample :
    load_sim_dict (.dict [(0, [(1, (1 : ℚ) / 2)]), (1, [])]) tT3 = .mistaken 0 1 ∧
    LoadOutcome.mistaken 0 1 ≠
      LoadOutcome.converted (create_matrix_from_dict [(0, [(1, (1 : ℚ) / 2)]), (1, [])] tT3).1
        (create_matrix_from_dict [(0, [(1, (1 : ℚ) / 2)]), (1, [])] tT3).2 := by
  refine ⟨rfl, ?_⟩
  intro h
  exact LoadOutcome.noConfusion h

/-- C8 amended: the canonical two-element pair is returned as-is, and a
nested mapping is converted — provided its number of rows differs from 2 —
into a matrix over the leaf-first concept ordering of the current
taxonomy, holding the mapping scores at the mapped in-range positions and
identity-matrix values everywhere else (a mapped diagonal entry takes the
mapping score). -/
theorem claim_C8_amended (t : Thes) (mat : List (Nat × Nat × ℚ)) (ids : List URI)
    (d : List (Nat × List (Nat × ℚ))) (hd : ¬ d.length = 2) :
    load_sim_dict (.pair mat ids) t = .asPair mat ids ∧
    load_sim_dict (.dict d) t
      = .converted (create_matrix_from_dict d t).1 (create_matrix_from_dict d t).2 ∧
    (create_matrix_from_dict d t).2 = orderedCpts t ∧
    (∀ a b : Nat,
      (create_matrix_from_dict d t).1 a b =
        match (if a < (orderedCpts t).length ∧ b < (orderedCpts t).length then
            (match lookupNat d a with
             | none => none
             | some row => lookupNat row b)
          else none) with
        | none => if a = b then 1 else 0
        | some v => v) := by
  refine ⟨rfl, ?_, rfl, ?_⟩
  · show (if d.length = 2 then
        LoadOutcome.mistaken ((d.map (fun e => e.1)).getD 0 0) ((d.map (fun e => e.1)).getD 1 0)
      else
        LoadOutcome.converted (create_matrix_from_dict d t).1 (create_matrix_from_dict d t).2)
      = LoadOutcome.converted (create_matrix_from_dict d t).1 (create_matrix_from_dict d t).2
    rw [if_neg hd]
  · intro a b
    show ((List.range (orderedCpts t).length).foldl
        (fun m i =>
          match lookupNat d i with
          | none => m
          | some row =>
            (List.range (orderedCpts t).length).foldl
              (fun m j => match lookupNat row j with | none => m | some v => qMatSet m i j v) m)
        (fun i j => if i = j then (1 : ℚ) else 0)) a b
      = match (if a < (orderedCpts t).length ∧ b < (orderedCpts t).length then
            (match lookupNat d a with
             | none => none
             | some row => lookupNat row b)
          else none) with
        | none => if a = b then 1 else 0
        | some v => v
    rw [outerFold_entry]

/-- Witness for the amended C8: a one-row legacy mapping is converted. -/
theorem claim_C8_amended_witness :
    (¬ ([(0, [(0, (3 : ℚ) / 4), (2, (1 : ℚ) / 2)])] :
        List (Nat × List (Nat × ℚ))).length = 2) ∧
    load_sim_dict (.dict [(0, [(0, (3 : ℚ) / 4), (2, (1 : ℚ) / 2)])]) tT3
      = .converted
        (create_matrix_from_dict [(0, [(0, (3 : ℚ) / 4), (2, (1 : ℚ) / 2)])] tT3).1
        (create_matrix_from_dict [(0, [(0, (3 : ℚ) / 4), (2, (1 : ℚ) / 2)])] tT3).2 :=
  ⟨by decide,
    (claim_C8_amended tT3 [] [] [(0, [(0, (3 : ℚ) / 4), (2, (1 : ℚ) / 2)])] (by decide)).2.1⟩


/-- C1: the claim states that the matrix built by `get_sim_dict` (no-cache
branch) is symmetric with 1.0 on every diagonal entry. The code violates
this: the inner loop enumerates the suffix `all_cpts[i:]` but writes
`sim_dict[i, j]` with the suffix-local index `j`, and the mirror loop
`range(i - 1 ...)` skips column `i - 1`. On the two-leaf taxonomy `tT3`
(leaf-first order `A, B, :T`), the built matrix has entry `(1, 1) = 0`
(diagonal destroyed) and entries `(0, 1) = 0` but `(1, 0) = 1`
(asymmetric): entry `(1, 0)` received the identity similarity of the pair
`(B, B)`. -/
theorem claim_C1_diag_sym_broken :
    orderedCpts tT3 = ["A", "B", ":T"] ∧
    mEntry tT3 1 1 = some 0 ∧
    mEntry tT3 0 1 = some 0 ∧
    mEntry tT3 1 0 = some 1 := by
  refine ⟨ordered_T3, ?_, ?_, ?_⟩
  · simp only [mEntry, sweepT3]
    norm_num [mT3c, mT3b, mT3a, matSet, matEye]
  · simp only [mEntry, sweepT3]
    norm_num [mT3c, mT3b, mT3a, matSet, matEye]
  · simp only [mEntry, sweepT3]
    norm_num [mT3c, mT3b, mT3a, matSet, matEye]

/-- C6: the claim states that whenever the sweep sees a zero similarity for
a pair `(i, j)`, the zero-link structure afterwards maps every member of
the ancestor closure of `i` plus `i` itself to a superset of the ancestor
closure of `j` plus `j` itself. The
code writes `brs2 = broaders(cpt2) | just cpt1` (source line 524), so `j`
itself is never linked. On `tT4` the sweep computes similarity 0 for the
pair `(X, Y)` (third conjunct shows the engine was invoked on it), yet the
final zero-link entry of `X` is the set containing `:T, C, X` and misses
`Y`, and the entry of `Y` is empty rather than containing the closure of
`X` plus `X` itself. -/
theorem claim_C6_zero_link_gap :
    get_lin_similarity tT4 "X" "Y" = .ok 0 ∧
    callsOf tT4 = some [("X", "X"), ("X", "Y"), ("Y", "Y"), ("Y", "C")] ∧
    mEntry tT4 0 1 = some 0 ∧
    lin0Of tT4 "X" = some ({":T", "C", "X"} : Finset URI) ∧
    lin0Of tT4 "Y" = some (∅ : Finset URI) ∧
    ("Y" : URI) ∉ ({":T", "C", "X"} : Finset URI) := by
  refine ⟨hlinXY4, ?_, ?_, ?_, ?_, by decide⟩
  · simp only [callsOf, sweepT4]
  · simp only [mEntry, sweepT4]
    norm_num [mT4d, mT4c, mT4b, mT4a, matSet, matEye]
  · simp only [lin0Of, sweepT4]
    with_unfolding_all decide
  · simp only [lin0Of, sweepT4]
    with_unfolding_all decide

/-- C7: the claim states that for a taxonomy with two disjoint top-level
branches the builder assigns similarity 0 to every pair spanning the two
branches, without invoking the similarity engine on such a pair. On `tT3`
the branches are the clusters of `A` and of `B` (third conjunct: no cluster
contains both), and the engine-call trace indeed contains no spanning pair
(it is exactly the identity pairs), but because of the column-index slip
the final matrix holds 1, not 0, at entry `(1, 0)` — the position of the
spanning pair `(B, A)` in the leaf-first order `A, B, :T`. -/
theorem claim_C7_cross_cluster :
    orderedCpts tT3 = ["A", "B", ":T"] ∧
    (∀ cl ∈ topClusters tT3, ¬ (("A" : URI) ∈ cl ∧ ("B" : URI) ∈ cl)) ∧
    callsOf tT3 = some [("A", "A"), ("B", "B")] ∧
    mEntry tT3 1 0 = some 1 ∧
    mEntry tT3 1 0 ≠ some 0 := by
  refine ⟨ordered_T3, by with_unfolding_all decide, ?_, ?_, ?_⟩
  · simp only [callsOf, sweepT3]
  · simp only [mEntry, sweepT3]
    norm_num [mT3c, mT3b, mT3a, matSet, matEye]
  · simp only [mEntry, sweepT3]
    norm_num [mT3c, mT3b, mT3a, matSet, matEye]
